import Mathlib

/-!
Verification of the free-text task segmenter implemented in
`src/utils/data_merger.py` (functions `normalize_text`,
`extract_parentheses_content`, `is_special_mixed_pattern`,
`split_english_japanese`, `split_tasks`).

Strings are modelled as `List Char`; a cell value that may be null/NaN is
modelled as `Option (List Char)`.  Every definition is translated from the
Python source; the few places where a regular expression or a library call
is paraphrased are noted in the doc comment of the corresponding definition.
-/

namespace DataMerger

/-- Characters stripped by Python `str.strip()` and matched by `\s` in a
`re` pattern over `str` (CPython's Unicode whitespace set: ASCII control
whitespace, space, NEL, NBSP, OGHAM SPACE MARK, the U+2000 block,
LINE/PARAGRAPH SEPARATOR, NNBSP, MMSP and IDEOGRAPHIC SPACE). -/
def isPySpace (c : Char) : Bool :=
  let n := c.toNat
  decide (9 ≤ n ∧ n ≤ 13) || decide (n = 32) || decide (28 ≤ n ∧ n ≤ 31) ||
  decide (n = 0x85) || decide (n = 0xA0) || decide (n = 0x1680) ||
  decide (0x2000 ≤ n ∧ n ≤ 0x200A) || decide (n = 0x2028) || decide (n = 0x2029) ||
  decide (n = 0x202F) || decide (n = 0x205F) || decide (n = 0x3000)

/-- Python `str.strip()`: drop leading and trailing whitespace. -/
def pyStrip (l : List Char) : List Char :=
  ((l.dropWhile isPySpace).reverse.dropWhile isPySpace).reverse

/-- `re.sub(r"^[C]+|[C]+$", "", s)` for a character class `C`: drop the
maximal run of class characters at each end of the string. -/
def stripEnds (p : Char → Bool) (l : List Char) : List Char :=
  ((l.dropWhile p).reverse.dropWhile p).reverse

/-- `re.sub(r"\s+", " ", s)`: replace every maximal whitespace run by a
single ASCII space. -/
def collapseWs : List Char → List Char
  | [] => []
  | [c] => if isPySpace c then [' '] else [c]
  | c :: d :: rest =>
    if isPySpace c then
      if isPySpace d then collapseWs (d :: rest)
      else ' ' :: collapseWs (d :: rest)
    else c :: collapseWs (d :: rest)

/-- One character of `unicodedata.normalize('NFKC', s)` (data_merger.py
line 218), restricted to the character repertoire this segmenter works
with: the fullwidth ASCII block U+FF01..U+FF5E folds to halfwidth and the
ideographic space U+3000 folds to an ASCII space.  All other characters
appearing anywhere in this development (hiragana, katakana, CJK
ideographs, the lenticular brackets, arrows) are NFKC fixed points. -/
def nfkcChar (c : Char) : Char :=
  if 0xFF01 ≤ c.toNat ∧ c.toNat ≤ 0xFF5E then Char.ofNat (c.toNat - 0xFEE0)
  else if c.toNat = 0x3000 then ' '
  else c

/-- `normalize_text` (lines 214-218): null/NaN maps to the empty string,
otherwise NFKC-normalize. -/
def normalize_text : Option (List Char) → List Char
  | none => []
  | some s => s.map nfkcChar

/-- Is `c` one of the three recognized opening brackets
(`opening_brackets`, line 231)? -/
def isOpenB (c : Char) : Bool := c == '(' || c == '（' || c == '【'

/-- `closing_brackets` (line 232): the opening bracket matching a closing
one, `none` for a non-bracket character. -/
def closeToOpen (c : Char) : Option Char :=
  if c = ')' then some '('
  else if c = '）' then some '（'
  else if c = '】' then some '【'
  else none

/-- The scan loop of `extract_parentheses_content` (lines 234-240):
walk the text with a stack of open-bracket positions; on a closing bracket
whose style matches the stack top, pop and record the span.  Unmatched
opens stay on the stack and produce nothing; unmatched closes are
ignored.  `i` is the index of the head of the remaining text, `ms` the
spans recorded so far in closing order. -/
def scanB : List Char → Nat → List (Nat × Char) → List (Nat × Nat) → List (Nat × Nat)
  | [], _, _, ms => ms
  | c :: rest, i, stack, ms =>
    if isOpenB c then scanB rest (i + 1) ((i, c) :: stack) ms
    else
      match closeToOpen c with
      | some o =>
        match stack with
        | [] => scanB rest (i + 1) [] ms
        | top :: stk =>
          if top.2 = o then scanB rest (i + 1) stk (ms ++ [(top.1, i)])
          else scanB rest (i + 1) (top :: stk) ms
      | none => scanB rest (i + 1) stack ms

/-- All matched bracket spans of a text, in the order the Python code
records them. -/
def bracketMatches (text : List Char) : List (Nat × Nat) := scanB text 0 [] []

/-- The sort key of line 245: ascending start, and for equal starts
descending end.  (Distinct matches always have distinct starts, so the
tiebreak is vacuous, but it is embedded faithfully.) -/
def spanLe (a b : Nat × Nat) : Bool :=
  decide (a.1 < b.1) || (decide (a.1 = b.1) && decide (b.2 ≤ a.2))

/-- Stable insertion of a span into a `spanLe`-sorted list. -/
def insertSpan (a : Nat × Nat) : List (Nat × Nat) → List (Nat × Nat)
  | [] => [a]
  | b :: rest => if spanLe a b then a :: b :: rest else b :: insertSpan a rest

/-- `matches.sort(key=lambda x: (x[0], -x[1]))` (line 245) as a stable
insertion sort.  All keys are distinct, so any correct sort agrees with
Python's. -/
def sortSpans (ms : List (Nat × Nat)) : List (Nat × Nat) := ms.foldr insertSpan []

/-- Do the inclusive index ranges of two spans intersect?  This is the
`current_range_set.intersection(covered_indices)` test of line 251,
expressed per already-selected span: for spans with `start ≤ end` the set
`range(s1, e1+1) ∩ range(s2, e2+1)` is nonempty iff `s1 ≤ e2 ∧ s2 ≤ e1`. -/
def spanOverlap (a b : Nat × Nat) : Bool := decide (a.1 ≤ b.2) && decide (b.1 ≤ a.2)

/-- The greedy selection loop of lines 246-253: keep a span iff its index
range intersects no already-selected span's range.  `acc` is
`top_level_matches` so far (whose ranges together form `covered_indices`). -/
def selectTop : List (Nat × Nat) → List (Nat × Nat) → List (Nat × Nat)
  | acc, [] => acc
  | acc, s :: rest =>
    if acc.any (fun a => spanOverlap a s) then selectTop acc rest
    else selectTop (acc ++ [s]) rest

/-- `top_level_matches` of a text: greedy selection over the sorted
matches. -/
def selectedSpans (text : List Char) : List (Nat × Nat) :=
  selectTop [] (sortSpans (bracketMatches text))

/-- Is index `i` in `indices_to_remove` (line 256), i.e. covered by some
selected span? -/
def coveredBy (sel : List (Nat × Nat)) (i : Nat) : Bool :=
  sel.any (fun p => decide (p.1 ≤ i) && decide (i ≤ p.2))

/-- Python slice `l[a:b]`. -/
def listSlice (l : List Char) (a b : Nat) : List Char := (l.drop a).take (b - a)

/-- `paren_content` (line 255): the literal substring strictly inside each
selected span, empty ones dropped. -/
def parenContentsOf (text : List Char) (sel : List (Nat × Nat)) : List (List Char) :=
  sel.filterMap (fun p =>
    let s := listSlice text (p.1 + 1) p.2
    if s = [] then none else some s)

/-- The cleaning walk of lines 258-267: keep uncovered characters; for a
covered character emit a single space unless one was just emitted
(`space_added` is `sa`). -/
def cleanWalk (sel : List (Nat × Nat)) : List Char → Nat → Bool → List Char
  | [], _, _ => []
  | c :: rest, i, sa =>
    if coveredBy sel i then
      if sa then cleanWalk sel rest (i + 1) true
      else ' ' :: cleanWalk sel rest (i + 1) true
    else c :: cleanWalk sel rest (i + 1) false

/-- The bracket-like characters stripped from the ends of the cleaned
text by the regex on line 271. -/
def isBracketEnd (c : Char) : Bool :=
  c == '(' || c == ')' || c == '（' || c == '）' || c == '[' || c == ']' ||
  c == '【' || c == '】' || c == '\x7b' || c == '\x7d' || c == '<' || c == '>' ||
  c == '《' || c == '》'

/-- Lines 269-271: join the walk buffer, collapse whitespace and strip,
then strip dangling bracket punctuation from both ends and strip again. -/
def cleanedOf (text : List Char) (sel : List (Nat × Nat)) : List Char :=
  pyStrip (stripEnds isBracketEnd (pyStrip (collapseWs (cleanWalk sel text 0 false))))

/-- `extract_parentheses_content` (lines 221-273).  When no span matched
the text is returned verbatim (line 243); the Python early return for the
empty string (line 227) returns `("", [])`, which coincides with that
branch. -/
def extract_parentheses_content (text : List Char) : List Char × List (List Char) :=
  if bracketMatches text = [] then (text, [])
  else (cleanedOf text (selectedSpans text), parenContentsOf text (selectedSpans text))

/-- The separator class of `re.split(r'[_ 　]+', main_text)` (line 319):
underscore, ASCII space, ideographic space. -/
def isSepChar (c : Char) : Bool := c == '_' || c == ' ' || c == '　'

/-- `re.split(r'[_ 　]+', s)`: split at maximal separator runs.  Chunks at
the ends may be empty, exactly as in Python. -/
def splitRuns : List Char → List (List Char)
  | [] => [[]]
  | c :: rest =>
    match splitRuns rest, rest with
    | [], _ => [[]]
    | h1 :: t1, r =>
      if isSepChar c then
        match r with
        | [] => [] :: h1 :: t1
        | d :: _ => if isSepChar d then h1 :: t1 else [] :: h1 :: t1
      else (c :: h1) :: t1

/-- The Japanese character class `[ぁ-んァ-ヶー一-龠々]` used by
`is_special_mixed_pattern` (lines 281, 286, 288). -/
def isJpChar (c : Char) : Bool :=
  let n := c.toNat
  decide (0x3041 ≤ n ∧ n ≤ 0x3093) || decide (0x30A1 ≤ n ∧ n ≤ 0x30F6) ||
  decide (n = 0x30FC) || decide (0x4E00 ≤ n ∧ n ≤ 0x9FA0) || decide (n = 0x3005)

/-- The Latin character class `[A-Za-z]`. -/
def isEnChar (c : Char) : Bool :=
  decide (0x41 ≤ c.toNat ∧ c.toNat ≤ 0x5A) || decide (0x61 ≤ c.toNat ∧ c.toNat ≤ 0x7A)

/-- The connector class of `split_english_japanese` (line 302):
hyphen, the two solidi, arrow, the two interpuncts, the two periods,
double angle brackets, the two question marks, bidirectional arrow and
the long vowel mark. -/
def connectorChars : List Char :=
  ['-', '/', '／', '→', '・', '･', '.', '．', '《', '》', '?', '？', '⇔', 'ー']

/-- `re.search(connectors_pattern, text)`: some character of the text is
in the connector class. -/
def hasConnector (t : List Char) : Bool := t.any (fun c => connectorChars.contains c)

/-- `re.match(r'^[ぁ-んァ-ヶー一-龠々]+[A-Za-z]$', text)` (line 288): one
or more Japanese characters followed by a single final Latin letter. -/
def jpPlusEnMatch (t : List Char) : Bool :=
  match t.getLast? with
  | none => false
  | some c => isEnChar c && !t.dropLast.isEmpty && t.dropLast.all isJpChar

/-- `is_special_mixed_pattern` (lines 276-291).  `re.findall` of a
one-character class is embedded as `List.filter`; the guard
`not text or len(text) < 2` collapses to the length test. -/
def is_special_mixed_pattern (t : List Char) : Bool :=
  if t.length < 2 then false
  else if (t.filter isJpChar).isEmpty || (t.filter isEnChar).isEmpty then false
  else if (match t with | a :: b :: _ => isEnChar a && isJpChar b | _ => false) then true
  else if jpPlusEnMatch t then true
  else false

/-- `split_english_japanese` (lines 294-309): empty input gives `[]`,
every other branch returns the token unchanged as a singleton. -/
def split_english_japanese (t : List Char) : List (List Char) :=
  if t = [] then []
  else if hasConnector t then [t]
  else if is_special_mixed_pattern t then [t]
  else [t]

/-- The inner loop of lines 328-331: for each subpart, strip it and
append it to `main_tasks` (`acc`) unless it is empty, an excluded value
(`uf` is `user_fields`) or already present. -/
def subGo (uf : List (List Char)) : List (List Char) → List (List Char) → List (List Char)
  | [], acc => acc
  | sub :: rest, acc =>
    let s := pyStrip sub
    if s ≠ [] ∧ s ∉ uf ∧ s ∉ acc then subGo uf rest (acc ++ [s])
    else subGo uf rest acc

/-- The outer loop of lines 322-331: strip each part, skip empties, and
feed the guard's subparts to `subGo`. -/
def mainGo (uf : List (List Char)) : List (List Char) → List (List Char) → List (List Char)
  | [], acc => acc
  | part :: rest, acc =>
    let p := pyStrip part
    if p = [] then mainGo uf rest acc
    else mainGo uf rest (subGo uf (split_english_japanese p) acc)

/-- `main_tasks` as a function of the cleaned main text and the excluded
values (lines 319-331). -/
def mainTasksOf (mainText : List Char) (uf : List (List Char)) : List (List Char) :=
  mainGo uf (splitRuns mainText) []

/-- The loop of lines 333-337: strip each bracket content and append it
unless empty or already present.  The excluded values are not consulted. -/
def parenGo : List (List Char) → List (List Char) → List (List Char)
  | [], acc => acc
  | c :: rest, acc =>
    let s := pyStrip c
    if s ≠ [] ∧ s ∉ acc then parenGo rest (acc ++ [s])
    else parenGo rest acc

/-- `paren_tasks` as a function of the extracted bracket contents. -/
def parenTasksOf (pcs : List (List Char)) : List (List Char) := parenGo pcs []

/-- The literal "会議" (meeting). -/
def kaigiTok : List Char := ['会', '議']

/-- The literal "Essential". -/
def essTok : List Char := "Essential".toList

/-- The literal "Non-Essential". -/
def nonEssTok : List Char := "Non-Essential".toList

/-- The suppression scan of lines 340-349: whenever the current token is
"会議" and the next one is "Non-Essential" or "Essential", drop both and
advance past them, otherwise keep the current token. -/
def filterPairs : List (List Char) → List (List Char)
  | [] => []
  | [t] => [t]
  | t :: next :: rest =>
    if t = kaigiTok ∧ (next = nonEssTok ∨ next = essTok) then filterPairs rest
    else t :: filterPairs (next :: rest)

/-- The punctuation class of line 353: comma, ideographic comma, the two
periods and the ideographic full stop, colon, semicolon, apostrophe,
double quote. -/
def isPunctChar (c : Char) : Bool :=
  c == ',' || c == '、' || c == '.' || c == '。' || c == '．' || c == ':' ||
  c == ';' || c == '\x27' || c == '\x22'

/-- Lines 356-357: strip the punctuation class from both ends, then strip
whitespace. -/
def stripTok (t : List Char) : List Char := pyStrip (stripEnds isPunctChar t)

/-- The final loop of lines 355-360: emit each stripped token unless it
became empty or was already seen (`seen` mirrors `seen_tasks`; the Python
set always holds exactly the emitted values). -/
def finalGo : List (List Char) → List (List Char) → List (List Char)
  | [], _ => []
  | t :: rest, seen =>
    let s := stripTok t
    if s ≠ [] ∧ s ∉ seen then s :: finalGo rest (seen ++ [s])
    else finalGo rest seen

/-- `final_tasks` as a function of the suppressed list (lines 351-362). -/
def finalPass (l : List (List Char)) : List (List Char) := finalGo l []

/-- `split_tasks` (lines 312-362): null/NaN gives `[]`; otherwise
normalize, extract bracket contents, build the main and bracket task
groups, concatenate them, run the suppression scan and the final
punctuation/deduplication pass. -/
def split_tasks (cell : Option (List Char)) (user_fields : List (List Char)) :
    List (List Char) :=
  match cell with
  | none => []
  | some cv =>
    let text := normalize_text (some cv)
    let mp := extract_parentheses_content text
    finalPass (filterPairs (mainTasksOf mp.1 user_fields ++ parenTasksOf mp.2))

/-- Modelled from the spec (section 4.2 step 7): the cleaned-main-text
pipeline as the spec describes it, applied unconditionally — walk the
text replacing every covered index by at most one space (consecutive
covered indices collapse to one space), collapse whitespace runs, trim,
strip dangling bracket-like punctuation from both ends and trim.  Used to
compare the spec's description with `extract_parentheses_content`. -/
def specWalk (sel : List (Nat × Nat)) : List Char → Nat → List Char
  | [], _ => []
  | c :: rest, i =>
    if coveredBy sel i then
      (if i = 0 ∨ coveredBy sel (i - 1) = false then [' '] else []) ++
        specWalk sel rest (i + 1)
    else c :: specWalk sel rest (i + 1)

/-- Modelled from the spec (section 4.2 step 7): the full cleaned main
text the spec's words prescribe for every input. -/
def cleanedMainSpec (text : List Char) : List Char :=
  pyStrip (stripEnds isBracketEnd (pyStrip (collapseWs (specWalk (selectedSpans text) text 0))))


theorem filterPairs_sublist (l : List (List Char)) : List.Sublist (filterPairs l) l := by
  induction l using filterPairs.induct with
  | case1 => simp [filterPairs]
  | case2 t => simp [filterPairs]
  | case3 t next rest h ih =>
    rw [filterPairs, if_pos h]
    exact ih.trans ((List.sublist_cons_self next rest).trans
      (List.sublist_cons_self t (next :: rest)))
  | case4 t next rest h ih =>
    rw [filterPairs, if_neg h]
    exact ih.cons₂ t

theorem filterPairs_cons_ne (a : List Char) (rest : List (List Char)) (h : a ≠ kaigiTok) :
    filterPairs (a :: rest) = a :: filterPairs rest := by
  cases rest with
  | nil => rfl
  | cons b r =>
    rw [filterPairs, if_neg]
    intro hc
    exact h hc.1

theorem filterPairs_drop (m : List Char) (post : List (List Char))
    (hm : m = nonEssTok ∨ m = essTok) :
    filterPairs (kaigiTok :: m :: post) = filterPairs post := by
  rw [filterPairs, if_pos ⟨rfl, hm⟩]

theorem filterPairs_keep : ∀ (l pre post : List (List Char)),
    l = pre ++ kaigiTok :: post →
    (∀ x, post.head? = some x → x ≠ nonEssTok ∧ x ≠ essTok) →
    kaigiTok ∈ filterPairs l := by
  intro l
  induction l using filterPairs.induct with
  | case1 =>
    intro pre post heq _
    exact absurd heq.symm (List.append_ne_nil_of_right_ne_nil pre (by simp))
  | case2 t =>
    intro pre post heq _
    cases pre with
    | nil =>
      simp only [List.nil_append, List.cons.injEq] at heq
      rw [filterPairs, heq.1]
      exact List.mem_singleton_self kaigiTok
    | cons a pre2 =>
      simp only [List.cons_append, List.cons.injEq] at heq
      exact absurd heq.2.symm (List.append_ne_nil_of_right_ne_nil pre2 (by simp))
  | case3 t next rest h ih =>
    intro pre post heq hpost
    cases pre with
    | nil =>
      simp only [List.nil_append, List.cons.injEq] at heq
      have hx := hpost next (by rw [heq.2.symm]; rfl)
      rcases h.2 with hne | hne
      · exact absurd hne hx.1
      · exact absurd hne hx.2
    | cons a pre2 =>
      simp only [List.cons_append, List.cons.injEq] at heq
      cases pre2 with
      | nil =>
        simp only [List.nil_append, List.cons.injEq] at heq
        rcases h.2 with hne | hne <;> rw [heq.2.1] at hne <;> exact absurd hne (by decide)
      | cons b pre3 =>
        simp only [List.cons_append, List.cons.injEq] at heq
        rw [filterPairs, if_pos h]
        exact ih pre3 post heq.2.2 hpost
  | case4 t next rest h ih =>
    intro pre post heq hpost
    rw [filterPairs, if_neg h]
    cases pre with
    | nil =>
      simp only [List.nil_append, List.cons.injEq] at heq
      rw [heq.1]
      exact List.mem_cons_self kaigiTok _
    | cons a pre2 =>
      simp only [List.cons_append, List.cons.injEq] at heq
      exact List.mem_cons_of_mem t (ih pre2 post heq.2 hpost)

theorem filterPairs_pair_gone : ∀ (pre post : List (List Char)) (m : List Char),
    (m = nonEssTok ∨ m = essTok) →
    kaigiTok ∉ pre → m ∉ pre → kaigiTok ∉ post → m ∉ post →
    kaigiTok ∉ filterPairs (pre ++ kaigiTok :: m :: post) ∧
    m ∉ filterPairs (pre ++ kaigiTok :: m :: post) := by
  intro pre
  induction pre with
  | nil =>
    intro post m hm _ _ hk hp
    rw [List.nil_append, filterPairs_drop m post hm]
    constructor
    · exact fun hmem => hk ((filterPairs_sublist post).mem hmem)
    · exact fun hmem => hp ((filterPairs_sublist post).mem hmem)
  | cons a pre2 ih =>
    intro post m hm hkpre hmpre hk hp
    have ha : a ≠ kaigiTok := by
      intro h
      exact hkpre (by rw [← h]; exact List.mem_cons_self a pre2)
    rw [List.cons_append, filterPairs_cons_ne a _ ha]
    have hrec := ih post m hm (fun h => hkpre (List.mem_cons_of_mem a h))
      (fun h => hmpre (List.mem_cons_of_mem a h)) hk hp
    constructor
    · intro hmem
      rcases List.mem_cons.mp hmem with h | h
      · exact ha h.symm
      · exact hrec.1 h
    · intro hmem
      rcases List.mem_cons.mp hmem with h | h
      · exact hmpre (by rw [h]; exact List.mem_cons_self a pre2)
      · exact hrec.2 h


theorem mem_finalGo_of_mem : ∀ (l seen : List (List Char)) (x : List Char),
    x ∈ l → stripTok x = x → x ≠ [] → x ∈ finalGo l seen ∨ x ∈ seen := by
  intro l
  induction l with
  | nil => intro seen x hx; cases hx
  | cons t rest ih =>
    intro seen x hx hstrip hne
    rw [finalGo]
    split
    · rename_i hcond
      rcases List.mem_cons.mp hx with h | h
      · subst h
        rw [hstrip]
        exact Or.inl (List.mem_cons_self x _)
      · rcases ih (seen ++ [stripTok t]) x h hstrip hne with h2 | h2
        · exact Or.inl (List.mem_cons_of_mem _ h2)
        · rcases List.mem_append.mp h2 with h3 | h3
          · exact Or.inr h3
          · rw [List.mem_singleton.mp h3]
            exact Or.inl (List.mem_cons_self _ _)
    · rename_i hcond
      rcases List.mem_cons.mp hx with h | h
      · subst h
        rw [Classical.not_and_iff_or_not_not] at hcond
        rcases hcond with h1 | h1
        · exact absurd hstrip (by intro he; exact h1 (by rw [he]; exact hne))
        · exact Or.inr (by rw [← hstrip]; exact Classical.not_not.mp h1)
      · exact ih seen x h hstrip hne

theorem finalGo_sublist : ∀ (l seen : List (List Char)),
    List.Sublist (finalGo l seen) (l.map stripTok) := by
  intro l
  induction l with
  | nil => intro seen; simp [finalGo]
  | cons t rest ih =>
    intro seen
    rw [List.map_cons, finalGo]
    split
    · exact (ih (seen ++ [stripTok t])).cons₂ (stripTok t)
    · exact (ih seen).cons (stripTok t)

theorem finalGo_not_mem_seen : ∀ (l seen : List (List Char)) (x : List Char),
    x ∈ finalGo l seen → x ∉ seen := by
  intro l
  induction l with
  | nil => intro seen x hx; simp [finalGo] at hx
  | cons t rest ih =>
    intro seen x hx hxseen
    rw [finalGo] at hx
    split at hx
    · rename_i hcond
      rcases List.mem_cons.mp hx with h | h
      · exact hcond.2 (h ▸ hxseen)
      · exact ih (seen ++ [stripTok t]) x h (List.mem_append_left _ hxseen)
    · exact ih seen x hx hxseen

theorem finalGo_nodup : ∀ (l seen : List (List Char)), (finalGo l seen).Nodup := by
  intro l
  induction l with
  | nil => intro seen; simp [finalGo]
  | cons t rest ih =>
    intro seen
    rw [finalGo]
    split
    · refine List.Nodup.cons ?_ (ih _)
      intro hmem
      exact finalGo_not_mem_seen rest (seen ++ [stripTok t]) _ hmem
        (List.mem_append_right _ (List.mem_singleton_self _))
    · exact ih seen

theorem subGo_not_uf : ∀ (subs uf acc : List (List Char)),
    (∀ t ∈ acc, t ∉ uf) → ∀ t ∈ subGo uf subs acc, t ∉ uf := by
  intro subs
  induction subs with
  | nil => intro uf acc hacc t ht; rw [subGo] at ht; exact hacc t ht
  | cons sub rest ih =>
    intro uf acc hacc t ht
    rw [subGo] at ht
    split at ht
    · rename_i hcond
      refine ih uf _ ?_ t ht
      intro x hx
      rcases List.mem_append.mp hx with h | h
      · exact hacc x h
      · rw [List.mem_singleton.mp h]
        exact hcond.2.1
    · exact ih uf acc hacc t ht

theorem mainGo_not_uf : ∀ (parts : List (List Char)) (uf acc : List (List Char)),
    (∀ t ∈ acc, t ∉ uf) → ∀ t ∈ mainGo uf parts acc, t ∉ uf := by
  intro parts
  induction parts with
  | nil => intro uf acc hacc t ht; rw [mainGo] at ht; exact hacc t ht
  | cons part rest ih =>
    intro uf acc hacc t ht
    rw [mainGo] at ht
    split at ht
    · exact ih uf acc hacc t ht
    · exact ih uf _ (subGo_not_uf _ uf acc hacc) t ht

theorem selectTop_pairwise : ∀ (l acc : List (Nat × Nat)),
    acc.Pairwise (fun a b => spanOverlap a b = false) →
    (selectTop acc l).Pairwise (fun a b => spanOverlap a b = false) := by
  intro l
  induction l with
  | nil => intro acc h; rw [selectTop]; exact h
  | cons s rest ih =>
    intro acc h
    rw [selectTop]
    split
    · exact ih acc h
    · rename_i hany
      refine ih (acc ++ [s]) ?_
      rw [List.pairwise_append]
      refine ⟨h, List.pairwise_singleton _ _, ?_⟩
      intro a ha b hb
      rw [List.mem_singleton.mp hb]
      have hfalse : acc.any (fun a => spanOverlap a s) = false :=
        Bool.not_eq_true _ ▸ eq_false_of_ne_true hany
      have := List.any_eq_false.mp hfalse a ha
      exact Bool.not_eq_true _ ▸ this

theorem cleanWalk_eq_specWalk (sel : List (Nat × Nat)) :
    ∀ (text : List Char) (i : Nat) (sa : Bool),
    (sa = true ↔ (i ≠ 0 ∧ coveredBy sel (i - 1) = true)) →
    cleanWalk sel text i sa = specWalk sel text i := by
  intro text
  induction text with
  | nil => intro i sa _; rfl
  | cons c rest ih =>
    intro i sa hsa
    rw [cleanWalk, specWalk]
    by_cases hc : coveredBy sel i = true
    · rw [if_pos hc, if_pos hc]
      have hnext : (true = true) ↔ ((i + 1 ≠ 0) ∧ coveredBy sel (i + 1 - 1) = true) := by
        simp [hc]
      by_cases hs : sa = true
      · rw [if_pos hs]
        have hi := hsa.mp hs
        rw [if_neg, List.nil_append]
        · exact ih (i + 1) true hnext
        · intro hcontra
          rcases hcontra with h0 | hcov
          · exact hi.1 h0
          · rw [hi.2] at hcov; cases hcov
      · rw [if_neg hs]
        have hcond : i = 0 ∨ coveredBy sel (i - 1) = false := by
          by_cases h0 : i = 0
          · exact Or.inl h0
          · right
            by_cases hcov : coveredBy sel (i - 1) = true
            · exact absurd (hsa.mpr ⟨h0, hcov⟩) hs
            · exact eq_false_of_ne_true hcov
        rw [if_pos hcond, List.singleton_append]
        exact congrArg (' ' :: ·) (ih (i + 1) true hnext)
    · rw [if_neg hc, if_neg hc]
      refine congrArg (c :: ·) (ih (i + 1) false ?_)
      constructor
      · intro h; cases h
      · intro h
        rw [Nat.add_sub_cancel] at h
        exact absurd h.2 hc


/-- C1 counterexample: the claim "no output task equals any value in the
excluded set" fails, because the excluded set is not applied to
bracket-derived tasks: for input "(X)" with excluded set {"X"}, the
output is ["X"], which is in the excluded set. -/
theorem claim_C1_counterexample :
    ¬ (∀ t ∈ split_tasks (some ['(', 'X', ')']) [['X']], t ∉ [[('X' : Char)]]) := by
  decide

/-- C1 (amended): no main-text-derived task (an element of `main_tasks`,
built by lines 321-331) ever equals a value of the excluded set; only
bracket-derived tasks can. -/
theorem claim_C1_amended (mainText : List Char) (uf : List (List Char)) :
    ∀ t ∈ mainTasksOf mainText uf, t ∉ uf :=
  mainGo_not_uf (splitRuns mainText) uf [] (by intro t ht; cases ht)

/-- Witness for C1: the main task "A" of input "A" with excluded set
{"B"} is not in the excluded set. -/
theorem claim_C1_witness : (['A'] : List Char) ∉ [[('B' : Char)]] :=
  claim_C1_amended ['A'] [[('B' : Char)]] ['A'] (by decide)

/-- C2 counterexample: the output of split_tasks CAN contain the adjacent
pair ("会議", "Essential"): for input "会議_,_Essential" the comma token
separates them during the suppression scan and is then stripped to
nothing by the final punctuation pass, leaving the pair adjacent in the
output. -/
theorem claim_C2_counterexample :
    split_tasks (some ("会議_,_Essential".toList)) [] = [kaigiTok, essTok] := by
  decide

/-- C2 (amended): a "会議" whose immediate successor in the combined
list is not "Essential"/"Non-Essential" (or that has no successor)
survives the suppression scan and the final pass, and a "会議"
immediately followed by one of the two markers is dropped by the scan
together with that marker; however, the final punctuation pass can leave
the pair ("会議", marker) adjacent in the output when an intervening
token is stripped to nothing. -/
theorem claim_C2_amended :
    (∀ pre post : List (List Char),
      (∀ x, post.head? = some x → x ≠ nonEssTok ∧ x ≠ essTok) →
      kaigiTok ∈ finalPass (filterPairs (pre ++ kaigiTok :: post))) ∧
    (∀ (m : List Char) (post : List (List Char)), m = nonEssTok ∨ m = essTok →
      filterPairs (kaigiTok :: m :: post) = filterPairs post) := by
  constructor
  · intro pre post h
    have hmem := filterPairs_keep _ pre post rfl h
    rcases mem_finalGo_of_mem (filterPairs (pre ++ kaigiTok :: post)) [] kaigiTok hmem
      (by decide) (by decide) with h2 | h2
    · exact h2
    · cases h2
  · exact fun m post hm => filterPairs_drop m post hm

/-- Witness for C2 (amended): a standalone "会議" after "Essential" is
kept, and a matched pair at the head is dropped whole. -/
theorem claim_C2_witness :
    kaigiTok ∈ finalPass (filterPairs ([essTok] ++ kaigiTok :: [])) ∧
    filterPairs [kaigiTok, essTok] = filterPairs [] :=
  ⟨claim_C2_amended.1 [essTok] [] (by intro x hx; simp at hx),
   claim_C2_amended.2 essTok [] (Or.inr rfl)⟩

/-- C3: the excluded set filters only main-text tokens, never
bracket-derived contents: split_tasks("打合せ(キオクシア)", {"打合せ"})
returns ["キオクシア"], and even when "キオクシア" itself is added to the
excluded set the bracket-derived task still appears in the output. -/
theorem claim_C3 :
    split_tasks (some ['打', '合', 'せ', '(', 'キ', 'オ', 'ク', 'シ', 'ア', ')'])
        [['打', '合', 'せ']] = [['キ', 'オ', 'ク', 'シ', 'ア']] ∧
    split_tasks (some ['打', '合', 'せ', '(', 'キ', 'オ', 'ク', 'シ', 'ア', ')'])
        [['打', '合', 'せ'], ['キ', 'オ', 'ク', 'シ', 'ア']] =
      [['キ', 'オ', 'ク', 'シ', 'ア']] := by
  constructor <;> decide

/-- C4: split_tasks is a total function (it is a Lean `def`, so it
terminates on every input and always returns a list); the absent/null
marker gives the empty list for every excluded set, and the empty,
whitespace-only, only-brackets and unbalanced-bracket inputs all return
without error. -/
theorem claim_C4 :
    (∀ uf : List (List Char), split_tasks none uf = []) ∧
    split_tasks (some []) [] = [] ∧
    split_tasks (some [' ', ' ', ' ']) [] = [] ∧
    split_tasks (some ['(', ')']) [] = [] ∧
    split_tasks (some ['(', '(', 'a']) [] = [['(', '(', 'a']] :=
  ⟨fun _ => rfl, by decide, by decide, by decide, by decide⟩

/-- Witness for C4: the null marker with the empty excluded set. -/
theorem claim_C4_witness : split_tasks none [] = [] := claim_C4.1 []

/-- C5: the selected top-level bracket spans are pairwise non-overlapping
(no character index is covered by two selected spans), and for the nested
input "(A(B))" the extractor yields the single outer content "A(B)" with
empty main text, so split_tasks returns ["A(B)"]. -/
theorem claim_C5 :
    (∀ text : List Char, (selectedSpans text).Pairwise
      (fun a b => ∀ i : Nat, ¬ ((a.1 ≤ i ∧ i ≤ a.2) ∧ (b.1 ≤ i ∧ i ≤ b.2)))) ∧
    extract_parentheses_content ['(', 'A', '(', 'B', ')', ')'] =
      ([], [['A', '(', 'B', ')']]) ∧
    split_tasks (some ['(', 'A', '(', 'B', ')', ')']) [] = [['A', '(', 'B', ')']] := by
  refine ⟨?_, by decide, by decide⟩
  intro text
  refine (selectTop_pairwise (sortSpans (bracketMatches text)) [] List.Pairwise.nil).imp ?_
  intro a b hab i hi
  simp only [spanOverlap, Bool.and_eq_false_iff, decide_eq_false_iff_not] at hab
  rcases hab with h | h
  · exact h (Nat.le_trans hi.1.1 hi.2.2)
  · exact h (Nat.le_trans hi.2.1 hi.1.2)

/-- Witness for C5: instantiated at the input "(x)". -/
theorem claim_C5_witness :
    (selectedSpans ['(', 'x', ')']).Pairwise
      (fun a b => ∀ i : Nat, ¬ ((a.1 ≤ i ∧ i ≤ a.2) ∧ (b.1 ≤ i ∧ i ≤ b.2))) :=
  claim_C5.1 ['(', 'x', ')']

/-- C6: for every nonempty token, split_english_japanese returns the
token unchanged as a single-element list, regardless of the outcome of
its connector and mixed-script checks: every branch yields `[t]`. -/
theorem claim_C6 (t : List Char) (h : t ≠ []) : split_english_japanese t = [t] := by
  rw [split_english_japanese, if_neg h]
  split
  · rfl
  · split <;> rfl

/-- Witness for C6: the token "a". -/
theorem claim_C6_witness : split_english_japanese ['a'] = [['a']] :=
  claim_C6 ['a'] (by decide)

/-- C7 counterexample: the claim that the cleaned main text is always
built by the replace/collapse/trim/strip pipeline fails: when no bracket
pair matches, extract_parentheses_content returns the text verbatim
(line 243), skipping the whole pipeline — for input "<a>" the code keeps
"<a>" while the described pipeline would strip the angle brackets. -/
theorem claim_C7_counterexample :
    (extract_parentheses_content ['<', 'a', '>']).1 ≠ cleanedMainSpec ['<', 'a', '>'] := by
  decide

/-- C7 (amended): the cleaned main text is built by the spec's
replace/collapse/trim/strip pipeline whenever at least one bracket pair
was matched; when no bracket pair matches the text is returned verbatim,
with no collapsing, trimming or stripping. -/
theorem claim_C7_amended (text : List Char) :
    (extract_parentheses_content text).1 =
      if bracketMatches text = [] then text else cleanedMainSpec text := by
  by_cases h : bracketMatches text = []
  · rw [extract_parentheses_content, if_pos h, if_pos h]
  · rw [extract_parentheses_content, if_neg h, if_neg h]
    show cleanedOf text (selectedSpans text) = cleanedMainSpec text
    rw [cleanedOf, cleanedMainSpec,
      cleanWalk_eq_specWalk (selectedSpans text) text 0 false (by simp)]

/-- Witness for C7 (amended): instantiated at the input "(x)". -/
theorem claim_C7_witness :
    (extract_parentheses_content ['(', 'x', ')']).1 =
      if bracketMatches ['(', 'x', ')'] = [] then ['(', 'x', ')']
      else cleanedMainSpec ['(', 'x', ')'] :=
  claim_C7_amended ['(', 'x', ')']

/-- C8: the output of split_tasks is an order-preserving selection from
the main-text task group followed by the bracket-derived task group (each
token possibly punctuation-stripped by the final pass), so main-derived
tasks precede bracket-derived ones and each group keeps its left-to-right
discovery order; the spec's example "A(B)" gives ["A", "B"]. -/
theorem claim_C8 :
    (∀ (cv : List Char) (uf : List (List Char)),
      List.Sublist (split_tasks (some cv) uf)
        ((mainTasksOf (extract_parentheses_content (normalize_text (some cv))).1 uf).map stripTok ++
         (parenTasksOf (extract_parentheses_content (normalize_text (some cv))).2).map stripTok)) ∧
    split_tasks (some ['A', '(', 'B', ')']) [] = [['A'], ['B']] := by
  refine ⟨?_, by decide⟩
  intro cv uf
  have h1 := finalGo_sublist
    (filterPairs (mainTasksOf (extract_parentheses_content (normalize_text (some cv))).1 uf ++
      parenTasksOf (extract_parentheses_content (normalize_text (some cv))).2)) []
  have h2 := (filterPairs_sublist
    (mainTasksOf (extract_parentheses_content (normalize_text (some cv))).1 uf ++
      parenTasksOf (extract_parentheses_content (normalize_text (some cv))).2)).map stripTok
  rw [List.map_append] at h2
  exact h1.trans h2

/-- Witness for C8: instantiated at the spec's example "A(B)". -/
theorem claim_C8_witness :
    List.Sublist (split_tasks (some ['A', '(', 'B', ')']) [])
      ((mainTasksOf (extract_parentheses_content (normalize_text (some ['A', '(', 'B', ')']))).1 []).map stripTok ++
       (parenTasksOf (extract_parentheses_content (normalize_text (some ['A', '(', 'B', ')']))).2).map stripTok) :=
  claim_C8.1 ['A', '(', 'B', ')'] []

/-- C9: no task value appears twice in the output of split_tasks: the
final pass deduplicates by first occurrence after punctuation stripping,
so the result list has no duplicates for any input and excluded set. -/
theorem claim_C9 (cell : Option (List Char)) (uf : List (List Char)) :
    (split_tasks cell uf).Nodup := by
  cases cell with
  | none => simp [split_tasks]
  | some cv => exact finalGo_nodup _ []

/-- Witness for C9: instantiated at the input "A(B)". -/
theorem claim_C9_witness : (split_tasks (some ['A', '(', 'B', ')']) []).Nodup :=
  claim_C9 (some ['A', '(', 'B', ')']) []

/-- C10: the suppression rule applies across the main/bracket boundary
because both groups are concatenated before the scan:
split_tasks("会議(Essential)", {}) and split_tasks("会議(Non-Essential)", {})
both return []; in general, when "会議" is immediately followed by a
marker in the combined list and neither value occurs elsewhere in it,
both occurrences are dropped by the scan. -/
theorem claim_C10 :
    split_tasks (some ['会', '議', '(', 'E', 's', 's', 'e', 'n', 't', 'i', 'a', 'l', ')']) [] = [] ∧
    split_tasks (some ("会議(Non-Essential)".toList)) [] = [] ∧
    (∀ (pre post : List (List Char)) (m : List Char),
      m = nonEssTok ∨ m = essTok →
      kaigiTok ∉ pre → m ∉ pre → kaigiTok ∉ post → m ∉ post →
      kaigiTok ∉ filterPairs (pre ++ kaigiTok :: m :: post) ∧
      m ∉ filterPairs (pre ++ kaigiTok :: m :: post)) :=
  ⟨by decide, by decide,
   fun pre post m hm h1 h2 h3 h4 => filterPairs_pair_gone pre post m hm h1 h2 h3 h4⟩

/-- Witness for C10: the two-element combined list ["会議", "Essential"]
loses both members. -/
theorem claim_C10_witness :
    kaigiTok ∉ filterPairs ([] ++ kaigiTok :: essTok :: []) ∧
    essTok ∉ filterPairs ([] ++ kaigiTok :: essTok :: []) :=
  claim_C10.2.2 [] [] essTok (Or.inr rfl) (by decide) (by decide) (by decide) (by decide)

end DataMerger
